import Mathlib

/-!
Verification of the url-shortener service's core modules against its
specification.

The development shallowly embeds:
* `src/server/utils/urlCodeGenerator.js` — the Base62 codec and the five
  code-generation strategies (`generate` and its helpers);
* the code-generation retry loop of the `POST /api/url/shorten` handler in
  `src/server/apis/url/index.js`;
* the `GET /api/url/info`, `POST /api/url/track-redirect`,
  `PUT /api/url/edit` and `GET /api/url/stats` handlers of
  `src/server/apis/url/index.js` together with the data-access layer
  `src/server/db/models/Url.js` (including the `click_details` insert
  trigger from `supabase-migration.sql`).

JavaScript numbers that only ever hold non-negative integers are embedded
as `Nat`; the accumulator of `decodeBase62` is embedded as `Int` because
`String.prototype.indexOf` returns `-1` on a missing character and that
value flows into the arithmetic.  Wall-clock time, `Math.random`,
`crypto.randomBytes` and the two hex digests are nondeterministic inputs
of the code; they are embedded as fields of an explicit environment
(`GenEnv`).  Codes and URLs are embedded as `List Char` in the generator
module and as `String` in the HTTP-handler and storage model.
-/

namespace UrlShortener

/-! ### Base62 codec — `src/server/utils/urlCodeGenerator.js` -/

/-- `BASE62_CHARS` from `urlCodeGenerator.js` line 11: the 62-symbol
alphabet, digit value = index. -/
def BASE62_CHARS : List Char :=
  "0123456789abcdefghijklmnopqrstuvwxyzABCDEFGHIJKLMNOPQRSTUVWXYZ".toList

/-- `BASE62_CHARS[i]` — JavaScript string indexing (only ever used with an
index `< 62` in the source; the default is irrelevant). -/
def base62Char (i : Nat) : Char := BASE62_CHARS.getD i '?'

/-- `BASE62_CHARS.indexOf(c)` — JavaScript `indexOf`, returning the first
index of `c`, or `-1` when `c` does not occur. -/
def jsIndexOf (c : Char) : Int :=
  let i := BASE62_CHARS.indexOf c
  if i < BASE62_CHARS.length then (i : Int) else -1

/-- The `while (num > 0)` loop of `encodeBase62` (lines 23–27): digits are
prepended, least-significant first, so the result is most-significant
first. -/
def encAux (n : Nat) : List Char :=
  if n = 0 then []
  else encAux (n / 62) ++ [base62Char (n % 62)]
termination_by n
decreasing_by exact Nat.div_lt_self (Nat.pos_of_ne_zero (by assumption)) (by omega)

/-- `encodeBase62` (lines 19–30): `"0"` for zero, otherwise repeated
div/mod by 62. -/
def encodeBase62 (n : Nat) : List Char :=
  if n = 0 then [base62Char 0] else encAux n

/-- One step of `decodeBase62`'s loop body (line 42):
`num = num * 62 + value` where `value` is the `indexOf` result. -/
def decodeStep (num : Int) (c : Char) : Int := num * 62 + jsIndexOf c

/-- `decodeBase62` (lines 37–45): fold the step over the characters.  The
source performs no alphabet validation: an out-of-alphabet character
contributes `indexOf`'s `-1`. -/
def decodeBase62 (s : List Char) : Int := s.foldl decodeStep 0

/-- `isValidCode` (lines 183–193): `false` for the empty string (falsy in
JavaScript), otherwise every character must occur in the alphabet
(`indexOf !== -1`). -/
def isValidCode (s : List Char) : Bool :=
  if s.isEmpty then false
  else s.all (fun c => jsIndexOf c ≠ -1)

/-- The reference base-62 conversion in the words of the spec (§4.1):
repeatedly take `n mod 62` as the next least-significant symbol and divide
`n` by 62 until `n` reaches 0.  Used only to compare `encodeBase62`
against the spec. -/
def specSymbolsLSB (n : Nat) : List Char :=
  if n = 0 then []
  else base62Char (n % 62) :: specSymbolsLSB (n / 62)
termination_by n
decreasing_by exact Nat.div_lt_self (Nat.pos_of_ne_zero (by assumption)) (by omega)

/-- The reference `encode` in the words of the spec (§4.1): `"0"` when
`n == 0`, otherwise the accumulated least-significant-first symbols,
reversed. -/
def encodeBase62Spec (n : Nat) : List Char :=
  if n = 0 then ['0'] else (specSymbolsLSB n).reverse

/-! ### Strategy engine — `src/server/utils/urlCodeGenerator.js`

The nondeterministic inputs of the strategies (wall clock, `Math.random`,
`crypto.randomBytes`, and the value of the first 16 hex characters of the
MD5 / SHA-256 digest of `url + Date.now() + Math.random()`) are abstracted
into an environment.  Successive draws from a randomness source are
modelled as a stream indexed by draw number. -/

/-- Environment of nondeterministic inputs consumed by one `generate`
call. -/
structure GenEnv where
  /-- Integer value of the first 16 hex characters of the MD5 digest of
  the salted input built from the given url (line 60). -/
  md5val : List Char → Nat
  /-- Integer value of the first 16 hex characters of the SHA-256 digest
  of the salted input built from the given url (line 84). -/
  sha256val : List Char → Nat
  /-- `Date.now()` (line 120). -/
  nowMillis : Nat
  /-- Successive draws of `Math.floor(Math.random() * 62)` (lines 65, 89,
  125): always an index below 62. -/
  randIdx : Nat → Fin 62
  /-- Successive bytes of `crypto.randomBytes` (line 102). -/
  randBytes : Nat → Nat

/-- The `while (code.length < length)` prepend-padding loop of
`generateFromMD5` / `generateFromSHA256` (lines 64–66 and 88–90): prepend
a fresh random alphabet character until the target length is reached.
`k` is the index of the next randomness draw. -/
def padLeft (rand : Nat → Fin 62) (k : Nat) (target : Nat) (code : List Char) : List Char :=
  if code.length < target then
    padLeft rand (k + 1) target (base62Char (rand k) :: code)
  else code
termination_by target - code.length
decreasing_by simp only [List.length_cons]; omega

/-- The `while (code.length < length)` append-padding loop of
`generateTimestampBased` (lines 124–127): append a fresh random alphabet
character until the target length is reached. -/
def padRight (rand : Nat → Fin 62) (k : Nat) (target : Nat) (code : List Char) : List Char :=
  if code.length < target then
    padRight rand (k + 1) target (code ++ [base62Char (rand k)])
  else code
termination_by target - code.length
decreasing_by simp only [List.length_append, List.length_singleton]; omega

/-- `generateFromMD5` (lines 54–69): Base62-encode the digest value modulo
`62 ** length`, left-pad with random alphabet characters, and take the
first `length` characters. -/
def generateFromMD5 (env : GenEnv) (url : List Char) («length» : Nat) : List Char :=
  let decimal := env.md5val url
  let code := encodeBase62 (decimal % 62 ^ «length»)
  (padLeft env.randIdx 0 «length» code).take «length»

/-- `generateFromSHA256` (lines 78–93): identical pipeline to
`generateFromMD5` with the SHA-256 digest. -/
def generateFromSHA256 (env : GenEnv) (url : List Char) («length» : Nat) : List Char :=
  let decimal := env.sha256val url
  let code := encodeBase62 (decimal % 62 ^ «length»)
  (padLeft env.randIdx 0 «length» code).take «length»

/-- `generateRandom` (lines 101–111): draw `length` random bytes and map
each to an alphabet character via `byte % 62`. -/
def generateRandom (env : GenEnv) («length» : Nat) : List Char :=
  (List.range «length»).map (fun i => base62Char (env.randBytes i % 62))

/-- `generateTimestampBased` (lines 119–130): Base62-encode the current
time, append random alphabet characters up to the target length, and keep
the last `length` characters (`substring(code.length - length)`). -/
def generateTimestampBased (env : GenEnv) («length» : Nat) : List Char :=
  let code := padRight env.randIdx 0 «length» (encodeBase62 env.nowMillis)
  code.drop (code.length - «length»)

/-- The `options` object of `generate` (lines 142–148) with its default
values: `strategy = "random"`, `url = ""`, `id = null`, `length = 7`. -/
structure GenOptions where
  strategy : String := "random"
  url : List Char := []
  id : Option Nat := none
  «length» : Nat := 7

/-- `generate` (lines 142–176): dispatch on the strategy name.  The
`switch` cases `"random"` and `default` share one branch, so every
strategy name other than `"base62"`, `"md5"`, `"sha256"` and
`"timestamp"` reaches `generateRandom`.  A thrown `Error` is embedded as
`Except.error` carrying the message. -/
def generate (env : GenEnv) (o : GenOptions) : Except String (List Char) :=
  if o.strategy = "base62" then
    match o.id with
    | none => .error "Base62 strategy requires an ID"
    | some id => .ok (encodeBase62 id)
  else if o.strategy = "md5" then
    if o.url = [] then .error "MD5 strategy requires a URL"
    else .ok (generateFromMD5 env o.url o.length)
  else if o.strategy = "sha256" then
    if o.url = [] then .error "SHA-256 strategy requires a URL"
    else .ok (generateFromSHA256 env o.url o.length)
  else if o.strategy = "timestamp" then
    .ok (generateTimestampBased env o.length)
  else
    .ok (generateRandom env o.length)

/-- A concrete environment (zero digests, zero clock, constant random
streams) used to evaluate the generator on explicit inputs. -/
def constEnv : GenEnv :=
  { md5val := fun _ => 0
    sha256val := fun _ => 0
    nowMillis := 0
    randIdx := fun _ => ⟨0, by omega⟩
    randBytes := fun _ => 0 }

/-! ### Code-generation retry loop — `POST /api/url/shorten`,
`src/server/apis/url/index.js` lines 186–196

```js
urlCode = shortid.generate();
let existingCode = await Url.findOne({ urlCode });
while (existingCode) {
  urlCode = shortid.generate();
  existingCode = await Url.findOne({ urlCode });
}
```

The loop is embedded with explicit fuel: `gen i` is the result of the
`(i+1)`-st `shortid.generate()` call, `taken` is the store query
`Url.findOne({urlCode})` viewed as a membership test.  `none` means the
given number of iterations did not finish the loop — the source has no
exit other than finding a free code. -/

/-- One fueled run of the body of the retry loop, starting at candidate
index `i`. -/
def genLoopFuel (gen : Nat → List Char) (taken : List Char → Bool) :
    Nat → Nat → Option (List Char)
  | _, 0 => none
  | i, fuel + 1 =>
    if taken (gen i) then genLoopFuel gen taken (i + 1) fuel
    else some (gen i)

/-- The whole candidate-generation phase of the shorten handler: first
candidate, then the retry loop. -/
def shortenGenerateCode (gen : Nat → List Char) (taken : List Char → Bool)
    (fuel : Nat) : Option (List Char) :=
  genLoopFuel gen taken 0 fuel

/-! ### Storage model — `src/server/db/models/Url.js` and
`supabase-migration.sql`

Rows of the `urls` and `click_details` tables.  Timestamps are embedded
as `Nat` milliseconds; the `DOUBLE PRECISION` latitude / longitude /
accuracy columns are never computed with by the code under verification,
so they are embedded as opaque optional integers only to keep the record
shape. -/

/-- A row of the `urls` table, in the camel-case shape produced by
`UrlModel._formatUrl`. -/
structure UrlRecord where
  id : Nat
  urlCode : String
  longUrl : String
  shortUrl : String
  clicks : Nat
  isCustom : Bool
  date : Nat
  lastClickedAt : Option Nat
  expiresAt : Option Nat
deriving DecidableEq

/-- A row of the `click_details` table. -/
structure ClickRow where
  id : Nat
  urlId : Nat
  timestamp : Nat
  userAgent : String
  referer : String
  ip : String
  latitude : Option Int
  longitude : Option Int
  accuracy : Option Int
  locationPermissionGranted : Bool
deriving DecidableEq

/-- The `location` part of the body of `POST /api/url/track-redirect`. -/
structure LocationData where
  latitude : Option Int
  longitude : Option Int
  accuracy : Option Int
  permissionGranted : Bool
deriving DecidableEq

/-- The `clickData` object assembled by the track-redirect handler
(lines 993–1009 of `src/server/apis/url/index.js`). -/
structure ClickData where
  timestamp : Nat
  userAgent : String
  referer : String
  ip : String
  location : Option LocationData
deriving DecidableEq

/-- The two tables, plus the next value of the `click_details` id
sequence (`BIGSERIAL`). -/
structure Store where
  urls : List UrlRecord
  clickDetails : List ClickRow
  nextClickId : Nat

/-- `Url.findOne({ urlCode })`: the row of `urls` with the given code
(unique by the `url_code` constraint; the model returns the first
match). -/
def findOneByCode (s : Store) (code : String) : Option UrlRecord :=
  s.urls.find? (fun u => u.urlCode = code)

/-- The rows of `click_details` belonging to one url
(`.eq("url_id", url.id)`). -/
def clickRowsFor (s : Store) (urlId : Nat) : List ClickRow :=
  s.clickDetails.filter (fun r => r.urlId = urlId)

/-- `.order("timestamp", { ascending: true })`. -/
def tsAsc (a b : ClickRow) : Bool := a.timestamp ≤ b.timestamp

/-- `.order("timestamp", { ascending: false })`. -/
def tsDesc (a b : ClickRow) : Bool := b.timestamp ≤ a.timestamp

/-- The row inserted by `UrlModel.recordClick` (lines 158–170 of
`src/server/db/models/Url.js`); its id comes from the `BIGSERIAL`
sequence. -/
def mkClickRow (s : Store) (u : UrlRecord) (cd : ClickData) : ClickRow :=
  { id := s.nextClickId
    urlId := u.id
    timestamp := cd.timestamp
    userAgent := cd.userAgent
    referer := cd.referer
    ip := cd.ip
    latitude := cd.location.bind (fun l => l.latitude)
    longitude := cd.location.bind (fun l => l.longitude)
    accuracy := cd.location.bind (fun l => l.accuracy)
    locationPermissionGranted := (cd.location.map (fun l => l.permissionGranted)).getD false }

/-- The effect of the `AFTER INSERT ON click_details` trigger
(`supabase-migration.sql` lines 47–62): bump `clicks` and set
`last_clicked_at` on the parent url row. -/
def applyClickTrigger (urls : List UrlRecord) (row : ClickRow) : List UrlRecord :=
  urls.map (fun u =>
    if u.id = row.urlId then
      { u with clicks := u.clicks + 1, lastClickedAt := some row.timestamp }
    else u)

/-- `UrlModel.recordClick` (lines 131–179 of `src/server/db/models/Url.js`):
look the url up, list its click rows ordered by timestamp ascending, and
when 100 or more exist delete all but the newest 99
(`existingClicks.slice(0, existingClicks.length - 99)` are deleted by id);
then insert the new row, which fires the counter trigger. -/
def recordClick (s : Store) (code : String) (cd : ClickData) : Except String Store :=
  match findOneByCode s code with
  | none => .error "URL not found"
  | some u =>
    let existing := (clickRowsFor s u.id).mergeSort tsAsc
    let afterDelete : List ClickRow :=
      if 100 ≤ existing.length then
        let idsToDelete := (existing.take (existing.length - 99)).map (fun r => r.id)
        s.clickDetails.filter (fun r => r.id ∉ idsToDelete)
      else s.clickDetails
    let row := mkClickRow s u cd
    .ok { urls := applyClickTrigger s.urls row
          clickDetails := afterDelete ++ [row]
          nextClickId := s.nextClickId + 1 }

/-- `UrlModel.getClickDetails` (lines 184–204): the click rows of the
url, newest first, limited. -/
def getClickDetails (s : Store) (code : String) (limit : Nat) : List ClickRow :=
  match findOneByCode s code with
  | none => []
  | some u => ((clickRowsFor s u.id).mergeSort tsDesc).take limit

/-! ### HTTP handlers — `src/server/apis/url/index.js`

Each handler is embedded as a pure function of the store, the current
time (`new Date()` as milliseconds), and the relevant request fields,
returning the HTTP status it responds with together with its result data
and the store it leaves behind.  The expiration test in the source is
`url.expiresAt && new Date() > url.expiresAt`. -/

/-- `t < now` embeds `new Date() > url.expiresAt` for a non-null
`expiresAt`. -/
def isExpired (expiresAt : Option Nat) (now : Nat) : Bool :=
  match expiresAt with
  | none => false
  | some t => t < now

/-- Response data of `GET /api/url/info/:urlCode` (lines 880–886). -/
structure InfoData where
  urlCode : String
  longUrl : String
  shortUrl : String
deriving DecidableEq

/-- `GET /api/url/info/:urlCode` (lines 838–895): 404 when unknown, 410
when expired, otherwise 200 with the basic fields and no click
recording. -/
def infoHandler (s : Store) (now : Nat) (code : String) : Nat × Option InfoData :=
  match findOneByCode s code with
  | none => (404, none)
  | some u =>
    if isExpired u.expiresAt now then (410, none)
    else (200, some { urlCode := u.urlCode, longUrl := u.longUrl, shortUrl := u.shortUrl })

/-- `POST /api/url/track-redirect` (lines 944–1029): 404 when unknown,
410 when expired (before any write), otherwise record the click.  The
second component is the store after the request. -/
def trackRedirectHandler (s : Store) (now : Nat) (code : String)
    (userAgent referer ip : String) (location : Option LocationData) : Nat × Store :=
  match findOneByCode s code with
  | none => (404, s)
  | some u =>
    if isExpired u.expiresAt now then (410, s)
    else
      match recordClick s code
          { timestamp := now, userAgent := userAgent, referer := referer,
            ip := ip, location := location } with
      | .ok s' => (200, s')
      | .error _ => (500, s)

/-- `PUT /api/url/edit/:urlCode` (lines 615–688): 404 when unknown, 410
when expired (before any write), 400 when the new destination fails the
`validUrl.isUri` check, otherwise update the destination and, when
`resetExpiration` is `true` or absent, push `expiresAt` out by the
configured number of hours.  `isUri` stands for the external
`valid-url` predicate. -/
def editHandler (isUri : String → Bool) (defaultExpirationHours : Nat)
    (s : Store) (now : Nat) (code : String) (newLongUrl : String)
    (resetExpiration : Option Bool) : Nat × Store :=
  match findOneByCode s code with
  | none => (404, s)
  | some u =>
    if isExpired u.expiresAt now then (410, s)
    else if ¬ isUri newLongUrl then (400, s)
    else
      let newExpiresAt :=
        if resetExpiration = some true ∨ resetExpiration = none then
          some (now + defaultExpirationHours * 3600000)
        else u.expiresAt
      (200,
        { s with
          urls := s.urls.map (fun v =>
            if v.urlCode = code then
              { v with longUrl := newLongUrl, expiresAt := newExpiresAt }
            else v) })

/-- Response data of `GET /api/url/stats/:urlCode` (lines 358–372).  The
derived percentage string `locationPermissionRate` is a floating-point
presentation of `clicksWithLocation` and `recentClicks.length` and is not
modelled. -/
structure StatsData where
  urlCode : String
  longUrl : String
  shortUrl : String
  createdAt : Nat
  totalClicks : Nat
  lastClickedAt : Option Nat
  clicksWithLocation : Nat
  recentClicks : List ClickRow
deriving DecidableEq

/-- `GET /api/url/stats/:urlCode` (lines 326–381): 404 when unknown,
otherwise 200 with the stored row and its click data — there is no
expiration check on this route. -/
def statsHandler (s : Store) (code : String) : Nat × Option StatsData :=
  match findOneByCode s code with
  | none => (404, none)
  | some u =>
    let clickDetails := getClickDetails s code 100
    let clicksWithLocation := clickDetails.filter (fun c => c.locationPermissionGranted)
    (200, some
      { urlCode := u.urlCode
        longUrl := u.longUrl
        shortUrl := u.shortUrl
        createdAt := u.date
        totalClicks := u.clicks
        lastClickedAt := u.lastClickedAt
        clicksWithLocation := clicksWithLocation.length
        recentClicks := clickDetails.take 10 })

/-! ### Concrete fixtures for evaluating the storage model -/

/-- A concrete stored url that expired at time 50. -/
def u0 : UrlRecord :=
  { id := 1
    urlCode := "abc"
    longUrl := "https://example.com"
    shortUrl := "http://localhost:3000/abc"
    clicks := 1
    isCustom := false
    date := 0
    lastClickedAt := some 10
    expiresAt := some 50 }

/-- A concrete stored click row of `u0`. -/
def row0 : ClickRow :=
  { id := 0
    urlId := 1
    timestamp := 10
    userAgent := "agent"
    referer := "Direct"
    ip := "127.0.0.1"
    latitude := none
    longitude := none
    accuracy := none
    locationPermissionGranted := false }

/-- A concrete store holding `u0` with one recorded click. -/
def s0 : Store :=
  { urls := [u0]
    clickDetails := [row0]
    nextClickId := 1 }

/-- A concrete click payload. -/
def cd0 : ClickData :=
  { timestamp := 60
    userAgent := "agent"
    referer := "Direct"
    ip := "127.0.0.1"
    location := none }

/-! ## Helper lemmas -/

/-- Looking an alphabet character back up recovers its digit value. -/
theorem jsIndexOf_base62Char : ∀ r : Fin 62, jsIndexOf (base62Char r.val) = r.val := by
  decide

/-- Fold form of the decode loop over the digits produced by the encode
loop: decoding after an accumulator `a` multiplies `a` past the digits
and adds `n` back. -/
theorem foldl_encAux (n : Nat) :
    ∀ a : Int, (encAux n).foldl decodeStep a = a * 62 ^ (encAux n).length + n := by
  induction n using Nat.strong_induction_on with
  | _ n ih =>
    intro a
    by_cases hn : n = 0
    · subst hn
      rw [encAux]
      simp
    · have hdiv : n / 62 < n := Nat.div_lt_self (Nat.pos_of_ne_zero hn) (by omega)
      rw [encAux]
      simp only [hn, if_false]
      rw [List.foldl_append, ih (n / 62) hdiv]
      have hmod : jsIndexOf (base62Char (n % 62)) = (n % 62 : Nat) :=
        jsIndexOf_base62Char ⟨n % 62, Nat.mod_lt _ (by omega)⟩
      simp only [List.foldl_cons, List.foldl_nil, decodeStep, hmod, List.length_append,
        List.length_singleton]
      have : (n : Int) = (n / 62 : Nat) * 62 + (n % 62 : Nat) := by
        push_cast
        omega
      rw [this]
      ring

/-- The encode loop produces exactly the reversed least-significant-first
symbol list of the reference conversion. -/
theorem encAux_eq_rev (n : Nat) : encAux n = (specSymbolsLSB n).reverse := by
  induction n using Nat.strong_induction_on with
  | _ n ih =>
    by_cases hn : n = 0
    · subst hn
      rw [encAux, specSymbolsLSB]
      simp
    · have hdiv : n / 62 < n := Nat.div_lt_self (Nat.pos_of_ne_zero hn) (by omega)
      rw [encAux, specSymbolsLSB]
      simp only [hn, if_false, List.reverse_cons]
      rw [ih (n / 62) hdiv]

/-- For positive input, the leading symbol of the encode loop is a
nonzero digit. -/
theorem encAux_head (n : Nat) (hn : 0 < n) :
    ∃ d rest, 0 < d ∧ d < 62 ∧ encAux n = base62Char d :: rest := by
  induction n using Nat.strong_induction_on with
  | _ n ih =>
    by_cases hd : n / 62 = 0
    · have hlt : n < 62 := by
        by_contra hge
        have : 0 < n / 62 := Nat.div_pos (by omega) (by omega)
        omega
      refine ⟨n % 62, [], ?_, Nat.mod_lt _ (by omega), ?_⟩
      · rw [Nat.mod_eq_of_lt hlt]
        exact hn
      · rw [encAux]
        simp only [show n ≠ 0 by omega, if_false, hd]
        rw [encAux]
        simp
    · obtain ⟨d, rest, h1, h2, h3⟩ :=
        ih (n / 62) (Nat.div_lt_self hn (by omega)) (Nat.pos_of_ne_zero hd)
      refine ⟨d, rest ++ [base62Char (n % 62)], h1, h2, ?_⟩
      rw [encAux]
      simp [show n ≠ 0 by omega, h3]

/-- A nonzero digit is not rendered as the character `'0'`. -/
theorem base62Char_ne_zero : ∀ d : Fin 62, 0 < d.val → base62Char d.val ≠ '0' := by
  decide

/-- Every digit below 62 renders to a character of the alphabet. -/
theorem base62Char_mem : ∀ r : Fin 62, base62Char r.val ∈ BASE62_CHARS := by
  decide

/-- All characters produced by the encode loop belong to the alphabet. -/
theorem encAux_mem (n : Nat) : ∀ c ∈ encAux n, c ∈ BASE62_CHARS := by
  induction n using Nat.strong_induction_on with
  | _ n ih =>
    intro c hc
    by_cases hn : n = 0
    · subst hn
      rw [encAux] at hc
      simp at hc
    · rw [encAux] at hc
      simp only [hn, if_false, List.mem_append, List.mem_singleton] at hc
      rcases hc with hc | hc
      · exact ih (n / 62) (Nat.div_lt_self (Nat.pos_of_ne_zero hn) (by omega)) c hc
      · subst hc
        exact base62Char_mem ⟨n % 62, Nat.mod_lt _ (by omega)⟩

/-- All characters of `encodeBase62` output belong to the alphabet. -/
theorem encodeBase62_mem (n : Nat) : ∀ c ∈ encodeBase62 n, c ∈ BASE62_CHARS := by
  intro c hc
  by_cases hn : n = 0
  · subst hn
    rw [encodeBase62] at hc
    simp at hc
    subst hc
    exact base62Char_mem ⟨0, by omega⟩
  · rw [encodeBase62] at hc
    simp only [hn, if_false] at hc
    exact encAux_mem n c hc

/-- The left-padding loop reaches at least the target length. -/
theorem padLeft_length (rand : Nat → Fin 62) (target : Nat) :
    ∀ d k code, target - code.length = d → target ≤ (padLeft rand k target code).length := by
  intro d
  induction d using Nat.strong_induction_on with
  | _ d ih =>
    intro k code hd
    rw [padLeft]
    by_cases h : code.length < target
    · simp only [h, if_true]
      exact ih (target - (code.length + 1)) (by omega) (k + 1)
        (base62Char (rand k) :: code) (by simp)
    · simp only [h, if_false]
      omega

/-- The left-padding loop only adds alphabet characters. -/
theorem padLeft_mem (rand : Nat → Fin 62) (target : Nat) :
    ∀ d k code, target - code.length = d → (∀ c ∈ code, c ∈ BASE62_CHARS) →
      ∀ c ∈ padLeft rand k target code, c ∈ BASE62_CHARS := by
  intro d
  induction d using Nat.strong_induction_on with
  | _ d ih =>
    intro k code hd hcode c hc
    rw [padLeft] at hc
    by_cases h : code.length < target
    · simp only [h, if_true] at hc
      refine ih (target - (code.length + 1)) (by omega) (k + 1)
        (base62Char (rand k) :: code) (by simp) ?_ c hc
      intro x hx
      rcases List.mem_cons.1 hx with hx | hx
      · subst hx
        exact base62Char_mem (rand k)
      · exact hcode x hx
    · simp only [h, if_false] at hc
      exact hcode c hc

/-- The right-padding loop reaches at least the target length. -/
theorem padRight_length (rand : Nat → Fin 62) (target : Nat) :
    ∀ d k code, target - code.length = d → target ≤ (padRight rand k target code).length := by
  intro d
  induction d using Nat.strong_induction_on with
  | _ d ih =>
    intro k code hd
    rw [padRight]
    by_cases h : code.length < target
    · simp only [h, if_true]
      exact ih (target - (code.length + 1)) (by omega) (k + 1)
        (code ++ [base62Char (rand k)]) (by simp)
    · simp only [h, if_false]
      omega

/-- The right-padding loop only adds alphabet characters. -/
theorem padRight_mem (rand : Nat → Fin 62) (target : Nat) :
    ∀ d k code, target - code.length = d → (∀ c ∈ code, c ∈ BASE62_CHARS) →
      ∀ c ∈ padRight rand k target code, c ∈ BASE62_CHARS := by
  intro d
  induction d using Nat.strong_induction_on with
  | _ d ih =>
    intro k code hd hcode c hc
    rw [padRight] at hc
    by_cases h : code.length < target
    · simp only [h, if_true] at hc
      refine ih (target - (code.length + 1)) (by omega) (k + 1)
        (code ++ [base62Char (rand k)]) (by simp) ?_ c hc
      intro x hx
      rcases List.mem_append.1 hx with hx | hx
      · exact hcode x hx
      · rw [List.mem_singleton] at hx
        subst hx
        exact base62Char_mem (rand k)
    · simp only [h, if_false] at hc
      exact hcode c hc

/-- If the first `d` candidates collide and candidate `d` is free, the
retry loop starting at index `i` returns candidate `i + d` given enough
fuel. -/
theorem genLoopFuel_first_free (gen : Nat → List Char) (taken : List Char → Bool) :
    ∀ d i fuel, (∀ m, m < d → taken (gen (i + m)) = true) →
      taken (gen (i + d)) = false → d < fuel →
      genLoopFuel gen taken i fuel = some (gen (i + d)) := by
  intro d
  induction d with
  | zero =>
    intro i fuel h0 hfree hlt
    match fuel, hlt with
    | f + 1, _ =>
      simp only [genLoopFuel]
      rw [show i + 0 = i from rfl] at hfree
      simp [hfree]
  | succ d ih =>
    intro i fuel h0 hfree hlt
    match fuel, hlt with
    | f + 1, _ =>
      have ht : taken (gen i) = true := by
        have := h0 0 (by omega)
        simpa using this
      simp only [genLoopFuel, ht, if_true]
      have hshift : ∀ m, m < d → taken (gen (i + 1 + m)) = true := by
        intro m hm
        have := h0 (m + 1) (by omega)
        rwa [show i + (m + 1) = i + 1 + m by omega] at this
      have hfree' : taken (gen (i + 1 + d)) = false := by
        rwa [show i + 1 + d = i + (d + 1) by omega]
      have := ih (i + 1) f hshift hfree' (by omega)
      rwa [show i + 1 + d = i + (d + 1) by omega] at this

/-- With every candidate taken, no amount of fuel finishes the retry
loop. -/
theorem genLoopFuel_allTaken (gen : Nat → List Char) :
    ∀ fuel i, genLoopFuel gen (fun _ => true) i fuel = none := by
  intro fuel
  induction fuel with
  | zero => intro i; rfl
  | succ f ih =>
    intro i
    simp only [genLoopFuel, if_true]
    exact ih (i + 1)

/-- The per-url filter commutes past the deletion-by-id filter. -/
theorem filter_url_delete (details : List ClickRow) (ids : List Nat) (urlId : Nat) :
    (details.filter (fun r => r.id ∉ ids)).filter (fun r => r.urlId = urlId) =
      (details.filter (fun r => r.urlId = urlId)).filter (fun r => r.id ∉ ids) := by
  rw [List.filter_filter, List.filter_filter]
  exact List.filter_congr (fun r _ => Bool.and_comm _ _)

/-- Deleting the ids of the first `m` rows of a list with pairwise
distinct ids leaves exactly the rows after position `m`. -/
theorem filter_drop_take_ids (l : List ClickRow) (m : Nat)
    (hnd : (l.map (fun r => r.id)).Nodup) :
    l.filter (fun r => r.id ∉ (l.take m).map (fun r => r.id)) = l.drop m := by
  set ids := (l.take m).map (fun r => r.id) with hids
  have hsplit : l.take m ++ l.drop m = l := List.take_append_drop m l
  have hnd' : ((l.take m).map (fun r => r.id) ++ (l.drop m).map (fun r => r.id)).Nodup := by
    rw [← List.map_append, hsplit]
    exact hnd
  have hdisj := (List.nodup_append.1 hnd').2.2
  have h1 : (l.take m).filter (fun r => r.id ∉ ids) = [] := by
    refine List.filter_eq_nil_iff.2 (fun r hr => ?_)
    have hm : r.id ∈ ids := hids ▸ List.mem_map_of_mem (fun r => r.id) hr
    simp [hm]
  have h2 : (l.drop m).filter (fun r => r.id ∉ ids) = l.drop m := by
    refine List.filter_eq_self.2 (fun r hr => ?_)
    have hm : r.id ∉ ids := fun hmem =>
      hdisj (hids ▸ hmem) (List.mem_map_of_mem (fun r => r.id) hr)
    simp [hm]
  conv_lhs => rw [← hsplit]
  rw [List.filter_append, h1, h2, List.nil_append]

/-- The ascending-timestamp comparison is transitive and total, so the
sort of the click rows is pairwise ordered. -/
theorem pairwise_mergeSort_tsAsc (l : List ClickRow) :
    (l.mergeSort tsAsc).Pairwise (fun a b => tsAsc a b) :=
  List.sorted_mergeSort
    (by intro a b c hab hbc; simp only [tsAsc, decide_eq_true_eq] at *; omega)
    (by intro a b; simp only [tsAsc, Bool.or_eq_true, decide_eq_true_eq]; omega)
    l

/-! ## Claims -/

/-- C1.  For every non-negative integer `n`,
`decodeBase62 (encodeBase62 n) = n`. -/
theorem decodeBase62_encodeBase62 (n : Nat) : decodeBase62 (encodeBase62 n) = n := by
  by_cases hn : n = 0
  · subst hn
    decide
  · unfold encodeBase62 decodeBase62
    simp only [hn, if_false]
    rw [foldl_encAux]
    simp

/-- C2, counterexample.  `decodeBase62` does not fail on the
out-of-alphabet input `"a!b"` of the spec: it returns the number 38389
(the character `'!'` contributes the `indexOf` result `-1`). -/
theorem decodeBase62_invalid_returns_number : decodeBase62 "a!b".toList = 38389 := by
  decide

/-- C2, amended.  `decodeBase62` performs no alphabet validation — an
out-of-alphabet character simply contributes `-1` to the accumulator, so
`decodeBase62 "a!b" = 38389`; the separate `isValidCode` predicate is
what rejects such strings, returning `false` whenever any character lies
outside the alphabet. -/
theorem decodeBase62_no_validation :
    decodeBase62 "a!b".toList = 38389 ∧ isValidCode "a!b".toList = false ∧
    ∀ (s : List Char) (c : Char), c ∈ s → c ∉ BASE62_CHARS → isValidCode s = false := by
  refine ⟨by decide, by decide, ?_⟩
  intro s c hc hmem
  have hne : s.isEmpty = false := by
    cases s with
    | nil => cases hc
    | cons a t => rfl
  have hidx : jsIndexOf c = -1 := by
    have h1 : BASE62_CHARS.indexOf c = BASE62_CHARS.length := List.indexOf_eq_length.2 hmem
    unfold jsIndexOf
    simp [h1]
  unfold isValidCode
  rw [hne]
  simp only [Bool.false_eq_true, if_false]
  exact List.all_eq_false.2 ⟨c, hc, by simp [hidx]⟩

/-- C2, witness for the amended claim at the concrete input `"a!b"`. -/
theorem decodeBase62_no_validation_witness :
    ('!' ∈ "a!b".toList) ∧ ('!' ∉ BASE62_CHARS) ∧ isValidCode "a!b".toList = false :=
  ⟨by decide, by decide,
    decodeBase62_no_validation.2.2 "a!b".toList '!' (by decide) (by decide)⟩

/-- C6.  `encodeBase62` coincides with the reference base-62 conversion
written from the words of the spec; in particular `encodeBase62 125 =
"21"`, and for positive input the leading symbol is never `'0'`. -/
theorem encodeBase62_matches_spec :
    (∀ n, encodeBase62 n = encodeBase62Spec n) ∧
    encodeBase62 125 = ['2', '1'] ∧
    ∀ n, 0 < n → (encodeBase62 n).headD '0' ≠ '0' := by
  refine ⟨?_, ?_, ?_⟩
  · intro n
    by_cases hn : n = 0
    · subst hn
      rw [encodeBase62, encodeBase62Spec]
      decide
    · rw [encodeBase62, encodeBase62Spec]
      simp only [hn, if_false]
      exact encAux_eq_rev n
  · simp [encodeBase62, encAux, base62Char, BASE62_CHARS]
  · intro n hn
    obtain ⟨d, rest, h1, h2, h3⟩ := encAux_head n hn
    rw [encodeBase62]
    simp only [show n ≠ 0 by omega, if_false, h3, List.headD_cons]
    exact base62Char_ne_zero ⟨d, h2⟩ h1

/-- C6, witness at the concrete input 125. -/
theorem encodeBase62_matches_spec_witness :
    (0 : Nat) < 125 ∧ (encodeBase62 125).headD '0' ≠ '0' :=
  ⟨by decide, encodeBase62_matches_spec.2.2 125 (by decide)⟩

/-- C3, counterexample.  The candidate-generation loop of the shorten
handler has no retry budget: with a store in which every candidate
collides, 1000 iterations — far beyond any fixed maximum attempt count —
leave the loop still running, and no error of any kind has been
surfaced (the loop has no exit besides finding a free code). -/
theorem shorten_loop_no_retry_bound :
    shortenGenerateCode (fun _ => ['x']) (fun _ => true) 1000 = none :=
  genLoopFuel_allTaken (fun _ => ['x']) 1000 0

/-- C3, amended.  The loop is unbounded: it keeps generating candidates
until the store reports one free, with no maximum retry count and no
`CodeSpaceExhausted` error; when the first `k` candidates collide and
candidate `k` is free, it performs exactly `k + 1` generations and
returns candidate `k`. -/
theorem shorten_loop_unbounded (gen : Nat → List Char) (taken : List Char → Bool)
    (k : Nat) (hcoll : ∀ i, i < k → taken (gen i) = true)
    (hfree : taken (gen k) = false) :
    ∀ fuel, k < fuel → shortenGenerateCode gen taken fuel = some (gen k) := by
  intro fuel hfuel
  have := genLoopFuel_first_free gen taken k 0 fuel
    (fun m hm => by simpa using hcoll m hm) (by simpa using hfree) hfuel
  simpa [shortenGenerateCode] using this

/-- C3, witness: a store in which the first two candidates collide and
the third is free — three generation attempts, and the third candidate is
the result. -/
theorem shorten_loop_unbounded_witness :
    (∀ i, i < 2 → (fun s => decide (s = ['0'] ∨ s = ['1'])) ((fun i => [base62Char i]) i) = true) ∧
    shortenGenerateCode (fun i => [base62Char i])
      (fun s => decide (s = ['0'] ∨ s = ['1'])) 5 = some ['2'] := by
  refine ⟨by decide, ?_⟩
  have h := shorten_loop_unbounded (fun i => [base62Char i])
    (fun s => decide (s = ['0'] ∨ s = ['1'])) 2 (by decide) (by decide) 5 (by decide)
  rw [h]
  decide

/-- C4, counterexample.  `generate` with the secure-random strategy and
length 0 — the concrete invalid call of the spec — does not fail with
`InvalidArguments`: it returns the empty string. -/
theorem generate_length_zero_returns_empty :
    generate constEnv { strategy := "random", «length» := 0 } = .ok [] := by
  rfl

/-- C4, amended.  `generate` performs no validation of the target
length: with length 0, each of the four length-accepting strategies
returns the empty string rather than failing. -/
theorem generate_length_zero (env : GenEnv) (url : List Char) (id : Option Nat)
    (hurl : url ≠ []) :
    generate env { strategy := "random", url := url, id := id, «length» := 0 } = .ok [] ∧
    generate env { strategy := "md5", url := url, id := id, «length» := 0 } = .ok [] ∧
    generate env { strategy := "sha256", url := url, id := id, «length» := 0 } = .ok [] ∧
    generate env { strategy := "timestamp", url := url, id := id, «length» := 0 } = .ok [] := by
  refine ⟨?_, ?_, ?_, ?_⟩
  · simp [generate, generateRandom]
  · simp [generate, hurl, generateFromMD5]
  · simp [generate, hurl, generateFromSHA256]
  · simp [generate, generateTimestampBased]

/-- C4, witness for the amended claim with a concrete environment and
url. -/
theorem generate_length_zero_witness :
    (("u".toList : List Char) ≠ []) ∧
    generate constEnv { strategy := "md5", url := "u".toList, id := none, «length» := 0 } =
      .ok [] :=
  ⟨by decide, (generate_length_zero constEnv "u".toList none (by decide)).2.1⟩

/-- C7.  `generate` fails when a required input for the chosen strategy
is missing: the hash strategies without a url (the url defaults to the
falsy empty string), and the sequential Base62 strategy without an id. -/
theorem generate_missing_input_errors (env : GenEnv) (url : List Char)
    (id : Option Nat) (len : Nat) :
    generate env { strategy := "md5", url := [], id := id, «length» := len } =
      .error "MD5 strategy requires a URL" ∧
    generate env { strategy := "sha256", url := [], id := id, «length» := len } =
      .error "SHA-256 strategy requires a URL" ∧
    generate env { strategy := "base62", url := url, id := none, «length» := len } =
      .error "Base62 strategy requires an ID" := by
  refine ⟨?_, ?_, ?_⟩ <;> rfl

/-- C10.  Any strategy name other than the five recognized ones is not
rejected: the `switch` falls through to its `default` branch, which is
shared with `"random"`, so `generate` returns a secure-random code of the
requested length; likewise an omitted strategy (defaulting to
`"random"`). -/
theorem generate_unknown_strategy_defaults (env : GenEnv) (o : GenOptions)
    (h1 : o.strategy ≠ "base62") (h2 : o.strategy ≠ "md5") (h3 : o.strategy ≠ "sha256")
    (h4 : o.strategy ≠ "timestamp") (_h5 : o.strategy ≠ "random") :
    generate env o = .ok (generateRandom env o.length) ∧
    (generateRandom env o.length).length = o.length ∧
    (∀ c ∈ generateRandom env o.length, c ∈ BASE62_CHARS) ∧
    ∀ url id len, generate env { url := url, id := id, «length» := len } =
      .ok (generateRandom env len) := by
  refine ⟨?_, ?_, ?_, ?_⟩
  · simp [generate, h1, h2, h3, h4]
  · simp [generateRandom]
  · intro c hc
    simp only [generateRandom, List.mem_map, List.mem_range] at hc
    obtain ⟨i, _, hi⟩ := hc
    subst hi
    exact base62Char_mem ⟨env.randBytes i % 62, Nat.mod_lt _ (by omega)⟩
  · intro url id len
    rfl

/-- C10, witness at the unrecognized strategy name `"bogus"`. -/
theorem generate_unknown_strategy_defaults_witness :
    (("bogus" : String) ≠ "random") ∧
    generate constEnv { strategy := "bogus" } = .ok (generateRandom constEnv 7) :=
  ⟨by decide, (generate_unknown_strategy_defaults constEnv { strategy := "bogus" }
    (by decide) (by decide) (by decide) (by decide) (by decide)).1⟩

/-- C5.  For each of the four fixed-length strategies (`md5`, `sha256`,
`random`, `timestamp`) and every positive target length, `generate`
returns a code of exactly the requested length whose characters are all
drawn from the 62-character alphabet. -/
theorem fixed_length_strategies (env : GenEnv) (url : List Char) (id : Option Nat)
    (len : Nat) (hlen : 1 ≤ len) (hurl : url ≠ []) :
    (generate env { strategy := "md5", url := url, id := id, «length» := len } =
        .ok (generateFromMD5 env url len) ∧
      (generateFromMD5 env url len).length = len ∧
      ∀ c ∈ generateFromMD5 env url len, c ∈ BASE62_CHARS) ∧
    (generate env { strategy := "sha256", url := url, id := id, «length» := len } =
        .ok (generateFromSHA256 env url len) ∧
      (generateFromSHA256 env url len).length = len ∧
      ∀ c ∈ generateFromSHA256 env url len, c ∈ BASE62_CHARS) ∧
    (generate env { strategy := "random", url := url, id := id, «length» := len } =
        .ok (generateRandom env len) ∧
      (generateRandom env len).length = len ∧
      ∀ c ∈ generateRandom env len, c ∈ BASE62_CHARS) ∧
    (generate env { strategy := "timestamp", url := url, id := id, «length» := len } =
        .ok (generateTimestampBased env len) ∧
      (generateTimestampBased env len).length = len ∧
      ∀ c ∈ generateTimestampBased env len, c ∈ BASE62_CHARS) := by
  refine ⟨⟨?_, ?_, ?_⟩, ⟨?_, ?_, ?_⟩, ⟨?_, ?_, ?_⟩, ⟨?_, ?_, ?_⟩⟩
  · simp [generate, hurl]
  · have hpad := padLeft_length env.randIdx len
      (len - (encodeBase62 (env.md5val url % 62 ^ len)).length) 0
      (encodeBase62 (env.md5val url % 62 ^ len)) rfl
    simp only [generateFromMD5, List.length_take]
    omega
  · intro c hc
    simp only [generateFromMD5] at hc
    exact padLeft_mem env.randIdx len _ 0 _ rfl
      (encodeBase62_mem _) c (List.mem_of_mem_take hc)
  · simp [generate, hurl]
  · have hpad := padLeft_length env.randIdx len
      (len - (encodeBase62 (env.sha256val url % 62 ^ len)).length) 0
      (encodeBase62 (env.sha256val url % 62 ^ len)) rfl
    simp only [generateFromSHA256, List.length_take]
    omega
  · intro c hc
    simp only [generateFromSHA256] at hc
    exact padLeft_mem env.randIdx len _ 0 _ rfl
      (encodeBase62_mem _) c (List.mem_of_mem_take hc)
  · simp [generate]
  · simp [generateRandom]
  · intro c hc
    simp only [generateRandom, List.mem_map, List.mem_range] at hc
    obtain ⟨i, _, hi⟩ := hc
    subst hi
    exact base62Char_mem ⟨env.randBytes i % 62, Nat.mod_lt _ (by omega)⟩
  · simp [generate]
  · have hpad := padRight_length env.randIdx len
      (len - (encodeBase62 env.nowMillis).length) 0 (encodeBase62 env.nowMillis) rfl
    simp only [generateTimestampBased, List.length_drop]
    omega
  · intro c hc
    simp only [generateTimestampBased] at hc
    exact padRight_mem env.randIdx len _ 0 _ rfl
      (encodeBase62_mem _) c (List.mem_of_mem_drop hc)

/-- C5, witness at length 7 with a concrete environment and url. -/
theorem fixed_length_strategies_witness :
    (1 ≤ 7) ∧ (("u".toList : List Char) ≠ []) ∧
    (generateRandom constEnv 7).length = 7 :=
  ⟨by decide, by decide,
    (fixed_length_strategies constEnv "u".toList none 7 (by decide) (by decide)).2.2.1.2.1⟩

/-- C8.  For a stored link whose `expiresAt` is non-null and earlier than
the current time: `info`, `track-redirect` and `edit` answer 410 Gone and
leave the store untouched, while `stats` still answers 200 with the
stored row and its click data (that route has no expiration check). -/
theorem expired_link_handling (s : Store) (now : Nat) (code : String) (u : UrlRecord)
    (t : Nat) (ua ref ip : String) (loc : Option LocationData) (newUrl : String)
    (reset : Option Bool) (isUri : String → Bool) (hours : Nat)
    (hfind : findOneByCode s code = some u)
    (hexp : u.expiresAt = some t) (ht : t < now) :
    infoHandler s now code = (410, none) ∧
    trackRedirectHandler s now code ua ref ip loc = (410, s) ∧
    editHandler isUri hours s now code newUrl reset = (410, s) ∧
    ∃ d, statsHandler s code = (200, some d) ∧
      d.urlCode = u.urlCode ∧ d.longUrl = u.longUrl ∧ d.totalClicks = u.clicks ∧
      d.lastClickedAt = u.lastClickedAt ∧
      d.recentClicks = (getClickDetails s code 100).take 10 := by
  have hexpired : isExpired u.expiresAt now = true := by
    rw [hexp]
    simpa [isExpired] using ht
  refine ⟨?_, ?_, ?_, ?_⟩
  · simp [infoHandler, hfind, hexpired]
  · simp [trackRedirectHandler, hfind, hexpired]
  · simp [editHandler, hfind, hexpired]
  · simp only [statsHandler, hfind]
    exact ⟨_, rfl, rfl, rfl, rfl, rfl, rfl⟩

/-- C8, witness: the concrete store `s0` whose link `"abc"` expired at
time 50, queried at time 100. -/
theorem expired_link_handling_witness :
    findOneByCode s0 "abc" = some u0 ∧ u0.expiresAt = some 50 ∧ 50 < 100 ∧
    infoHandler s0 100 "abc" = (410, none) :=
  ⟨by decide, by decide, by decide,
    (expired_link_handling s0 100 "abc" u0 50 "agent" "Direct" "127.0.0.1" none
      "https://example.org" none (fun _ => true) 24
      (by decide) (by decide) (by decide)).1⟩

/-- C9.  After every successful `recordClick` (on a store whose click-row
ids are pairwise distinct and below the id sequence, as the `BIGSERIAL`
primary key guarantees): the stored click rows of the link number at most
100; the new row is among them and every other stored row was already
stored before; and when 100 or more rows existed beforehand, exactly 100
remain and every deleted row is no newer than every kept one — the oldest
rows are the ones deleted. -/
theorem recordClick_retention (s : Store) (code : String) (cd : ClickData) (u : UrlRecord)
    (hfind : findOneByCode s code = some u)
    (hnodup : (s.clickDetails.map (fun r => r.id)).Nodup)
    (hfresh : ∀ r ∈ s.clickDetails, r.id < s.nextClickId) :
    ∃ s', recordClick s code cd = .ok s' ∧
      (clickRowsFor s' u.id).length ≤ 100 ∧
      mkClickRow s u cd ∈ clickRowsFor s' u.id ∧
      (∀ r ∈ clickRowsFor s' u.id, r ≠ mkClickRow s u cd → r ∈ clickRowsFor s u.id) ∧
      (100 ≤ (clickRowsFor s u.id).length →
        (clickRowsFor s' u.id).length = 100 ∧
        ∀ d_ ∈ clickRowsFor s u.id, d_ ∉ clickRowsFor s' u.id →
          ∀ k_ ∈ clickRowsFor s u.id, k_ ∈ clickRowsFor s' u.id →
            d_.timestamp ≤ k_.timestamp) := by
  classical
  have hperm : List.Perm ((clickRowsFor s u.id).mergeSort tsAsc) (clickRowsFor s u.id) :=
    List.mergeSort_perm _ _
  have hlen_sort : ((clickRowsFor s u.id).mergeSort tsAsc).length =
      (clickRowsFor s u.id).length := hperm.length_eq
  by_cases hn : 100 ≤ ((clickRowsFor s u.id).mergeSort tsAsc).length
  · -- deletion branch: 100 or more rows already stored
    refine ⟨{ urls := applyClickTrigger s.urls (mkClickRow s u cd)
              clickDetails :=
                s.clickDetails.filter (fun r => r.id ∉
                  (((clickRowsFor s u.id).mergeSort tsAsc).take
                    (((clickRowsFor s u.id).mergeSort tsAsc).length - 99)).map
                      (fun r => r.id)) ++ [mkClickRow s u cd]
              nextClickId := s.nextClickId + 1 }, ?_, ?_⟩
    · rw [recordClick, hfind]
      simp only [if_pos hn]
    · have hafter : clickRowsFor
          { urls := applyClickTrigger s.urls (mkClickRow s u cd)
            clickDetails :=
              s.clickDetails.filter (fun r => r.id ∉
                (((clickRowsFor s u.id).mergeSort tsAsc).take
                  (((clickRowsFor s u.id).mergeSort tsAsc).length - 99)).map
                    (fun r => r.id)) ++ [mkClickRow s u cd]
            nextClickId := s.nextClickId + 1 } u.id =
          (clickRowsFor s u.id).filter (fun r => r.id ∉
            (((clickRowsFor s u.id).mergeSort tsAsc).take
              (((clickRowsFor s u.id).mergeSort tsAsc).length - 99)).map
                (fun r => r.id)) ++ [mkClickRow s u cd] := by
        simp only [clickRowsFor, List.filter_append]
        congr 1
        · exact filter_url_delete s.clickDetails _ u.id
        · simp [mkClickRow]
      have hnd_before : ((clickRowsFor s u.id).map (fun r => r.id)).Nodup :=
        hnodup.sublist ((List.filter_sublist _).map _)
      have hnd_sorted :
          (((clickRowsFor s u.id).mergeSort tsAsc).map (fun r => r.id)).Nodup :=
        ((hperm.map _).nodup_iff).2 hnd_before
      have hfdt := filter_drop_take_ids ((clickRowsFor s u.id).mergeSort tsAsc)
        (((clickRowsFor s u.id).mergeSort tsAsc).length - 99) hnd_sorted
      have hkept : List.Perm
          ((clickRowsFor s u.id).filter (fun r => r.id ∉
            (((clickRowsFor s u.id).mergeSort tsAsc).take
              (((clickRowsFor s u.id).mergeSort tsAsc).length - 99)).map
                (fun r => r.id)))
          (((clickRowsFor s u.id).mergeSort tsAsc).drop
            (((clickRowsFor s u.id).mergeSort tsAsc).length - 99)) := by
        rw [← hfdt]
        exact (hperm.filter _).symm
      have hkept_len : ((clickRowsFor s u.id).filter (fun r => r.id ∉
          (((clickRowsFor s u.id).mergeSort tsAsc).take
            (((clickRowsFor s u.id).mergeSort tsAsc).length - 99)).map
              (fun r => r.id))).length = 99 := by
        rw [hkept.length_eq, List.length_drop]
        omega
      have hnd_split :
          ((((clickRowsFor s u.id).mergeSort tsAsc).take
              (((clickRowsFor s u.id).mergeSort tsAsc).length - 99)).map (fun r => r.id) ++
            (((clickRowsFor s u.id).mergeSort tsAsc).drop
              (((clickRowsFor s u.id).mergeSort tsAsc).length - 99)).map
                (fun r => r.id)).Nodup := by
        rw [← List.map_append, List.take_append_drop]
        exact hnd_sorted
      have hdisj := (List.nodup_append.1 hnd_split).2.2
      have hrow_fresh : mkClickRow s u cd ∉ clickRowsFor s u.id := by
        intro hmem
        have := hfresh _ (List.mem_of_mem_filter hmem)
        simp [mkClickRow] at this
      refine ⟨?_, ?_, ?_, ?_⟩
      · rw [hafter, List.length_append, hkept_len]
        simp only [List.length_singleton]
        omega
      · rw [hafter]
        exact List.mem_append_right _ (List.mem_singleton_self _)
      · intro r hr hne
        rw [hafter] at hr
        rcases List.mem_append.1 hr with hr | hr
        · exact List.mem_of_mem_filter hr
        · exact absurd (List.mem_singleton.1 hr) hne
      · intro _
        refine ⟨by rw [hafter, List.length_append, hkept_len]; simp, ?_⟩
        intro d_ hd hdnot k_ hk hkin
        have hd_id : d_.id ∈
            (((clickRowsFor s u.id).mergeSort tsAsc).take
              (((clickRowsFor s u.id).mergeSort tsAsc).length - 99)).map
                (fun r => r.id) := by
          by_contra hid
          exact hdnot (hafter ▸ List.mem_append_left _ (List.mem_filter.2 ⟨hd, by simpa using hid⟩))
        have hd_sorted : d_ ∈ (clickRowsFor s u.id).mergeSort tsAsc := hperm.mem_iff.2 hd
        rw [← List.take_append_drop
          (((clickRowsFor s u.id).mergeSort tsAsc).length - 99)
          ((clickRowsFor s u.id).mergeSort tsAsc)] at hd_sorted
        have hd_take : d_ ∈ ((clickRowsFor s u.id).mergeSort tsAsc).take
            (((clickRowsFor s u.id).mergeSort tsAsc).length - 99) := by
          rcases List.mem_append.1 hd_sorted with h | h
          · exact h
          · exact absurd hd_id (fun hin => hdisj hin (List.mem_map_of_mem (fun r => r.id) h))
        have hk_ne : k_ ≠ mkClickRow s u cd := by
          intro heq
          exact hrow_fresh (heq ▸ hk)
        have hk_kept : k_ ∈ (clickRowsFor s u.id).filter (fun r => r.id ∉
            (((clickRowsFor s u.id).mergeSort tsAsc).take
              (((clickRowsFor s u.id).mergeSort tsAsc).length - 99)).map
                (fun r => r.id)) := by
          rw [hafter] at hkin
          rcases List.mem_append.1 hkin with h | h
          · exact h
          · exact absurd (List.mem_singleton.1 h) hk_ne
        have hk_id : k_.id ∉
            (((clickRowsFor s u.id).mergeSort tsAsc).take
              (((clickRowsFor s u.id).mergeSort tsAsc).length - 99)).map
                (fun r => r.id) := by
          have := (List.mem_filter.1 hk_kept).2
          simpa using this
        have hk_sorted : k_ ∈ (clickRowsFor s u.id).mergeSort tsAsc := hperm.mem_iff.2 hk
        rw [← List.take_append_drop
          (((clickRowsFor s u.id).mergeSort tsAsc).length - 99)
          ((clickRowsFor s u.id).mergeSort tsAsc)] at hk_sorted
        have hk_drop : k_ ∈ ((clickRowsFor s u.id).mergeSort tsAsc).drop
            (((clickRowsFor s u.id).mergeSort tsAsc).length - 99) := by
          rcases List.mem_append.1 hk_sorted with h | h
          · exact absurd (List.mem_map_of_mem (fun r => r.id) h) hk_id
          · exact h
        have hpw := pairwise_mergeSort_tsAsc (clickRowsFor s u.id)
        rw [← List.take_append_drop
          (((clickRowsFor s u.id).mergeSort tsAsc).length - 99)
          ((clickRowsFor s u.id).mergeSort tsAsc)] at hpw
        have hrel := (List.pairwise_append.1 hpw).2.2 d_ hd_take k_ hk_drop
        simpa [tsAsc] using hrel
  · -- no-deletion branch: fewer than 100 rows stored
    refine ⟨{ urls := applyClickTrigger s.urls (mkClickRow s u cd)
              clickDetails := s.clickDetails ++ [mkClickRow s u cd]
              nextClickId := s.nextClickId + 1 }, ?_, ?_⟩
    · rw [recordClick, hfind]
      simp only [if_neg hn]
    · have hafter : clickRowsFor
          { urls := applyClickTrigger s.urls (mkClickRow s u cd)
            clickDetails := s.clickDetails ++ [mkClickRow s u cd]
            nextClickId := s.nextClickId + 1 } u.id =
          clickRowsFor s u.id ++ [mkClickRow s u cd] := by
        simp only [clickRowsFor, List.filter_append]
        congr 1
        simp [mkClickRow]
      refine ⟨?_, ?_, ?_, ?_⟩
      · rw [hafter, List.length_append]
        simp only [List.length_singleton]
        omega
      · rw [hafter]
        exact List.mem_append_right _ (List.mem_singleton_self _)
      · intro r hr hne
        rw [hafter] at hr
        rcases List.mem_append.1 hr with hr | hr
        · exact hr
        · exact absurd (List.mem_singleton.1 hr) hne
      · intro hcontra
        omega

/-- C9, witness: recording a click on the concrete store `s0` (one stored
click row, distinct ids) succeeds and keeps the row count within 100. -/
theorem recordClick_retention_witness :
    findOneByCode s0 "abc" = some u0 ∧
    ∃ s', recordClick s0 "abc" cd0 = .ok s' ∧ (clickRowsFor s' u0.id).length ≤ 100 := by
  refine ⟨by decide, ?_⟩
  obtain ⟨s', h1, h2, -, -, -⟩ :=
    recordClick_retention s0 "abc" cd0 u0 (by decide) (by decide) (by decide)
  exact ⟨s', h1, h2⟩

end UrlShortener
